import Mathlib

/-!
Shallow embedding of the Shopify chat backend's tool-calling conversation
loop, tool-result processing and history truncation
(`services/tool.server.js`, `services/chatgpt.server.js` and the chat API
route), together with proofs about the claims of the specification.

JavaScript values that flow through the code (tool payloads, stored
message content) are modelled by a small JSON value type `JsonVal`;
`JSON.stringify` and `JSON.parse` are modelled by `jsStringify` and
`jsonParse` (integer numerals, the escapes that actually occur; a parse
failure is `none`, matching the thrown exception being caught at every
call site).
-/

/-- JSON values as they appear in tool payloads and stored messages. -/
inductive JsonVal where
  | jnull : JsonVal
  | jbool : Bool → JsonVal
  | jnum : Int → JsonVal
  | jstr : String → JsonVal
  | jarr : List JsonVal → JsonVal
  | jobj : List (String × JsonVal) → JsonVal
deriving Repr

/-- The `\x7b` character (JS object opener), kept out of literals. -/
def lbrace : Char := Char.ofNat 123

/-- The `\x7d` character (JS object closer), kept out of literals. -/
def rbrace : Char := Char.ofNat 125

/-- JSON string escaping for the characters `JSON.stringify` must escape
among those our payloads contain. -/
def escapeChar (c : Char) : List Char :=
  if c = '"' then ['\\', '"']
  else if c = '\\' then ['\\', '\\']
  else if c = '\n' then ['\\', 'n']
  else if c = '\t' then ['\\', 't']
  else if c = '\r' then ['\\', 'r']
  else [c]

/-- Quote and escape a string, as `JSON.stringify` does. -/
def quoteStr (s : String) : String :=
  "\"" ++ String.mk (s.data.foldr (fun c acc => escapeChar c ++ acc) []) ++ "\""

mutual

/-- Model of `JSON.stringify` on our value type. -/
def jsStringify : JsonVal → String
  | JsonVal.jnull => "null"
  | JsonVal.jbool true => "true"
  | JsonVal.jbool false => "false"
  | JsonVal.jnum n => toString n
  | JsonVal.jstr s => quoteStr s
  | JsonVal.jarr xs => "[" ++ stringifyItems xs ++ "]"
  | JsonVal.jobj fs => String.singleton lbrace ++ stringifyFields fs ++ String.singleton rbrace

/-- Comma-separated serialization of array items. -/
def stringifyItems : List JsonVal → String
  | [] => ""
  | [x] => jsStringify x
  | x :: y :: xs => jsStringify x ++ "," ++ stringifyItems (y :: xs)

/-- Comma-separated serialization of object fields. -/
def stringifyFields : List (String × JsonVal) → String
  | [] => ""
  | [(k, v)] => quoteStr k ++ ":" ++ jsStringify v
  | (k, v) :: f :: fs => quoteStr k ++ ":" ++ jsStringify v ++ "," ++ stringifyFields (f :: fs)

end

/-- Whitespace skipping between JSON tokens. -/
def skipWs (cs : List Char) : List Char :=
  cs.dropWhile fun c => c == ' ' || c == '\t' || c == '\r' || c == '\n'

/-- Unescape one escape character inside a JSON string literal
(unsupported escapes fail the parse). -/
def unescapeChar (c : Char) : Option Char :=
  if c = '"' then some '"'
  else if c = '\\' then some '\\'
  else if c = '/' then some '/'
  else if c = 'n' then some '\n'
  else if c = 't' then some '\t'
  else if c = 'r' then some '\r'
  else if c = 'b' then some (Char.ofNat 8)
  else if c = 'f' then some (Char.ofNat 12)
  else none

/-- Parse the remainder of a JSON string literal (after the opening
quote), returning its characters and the rest of the input. -/
def parseStrAux : List Char → Option (List Char × List Char)
  | [] => none
  | c :: rest =>
    if c = '"' then some ([], rest)
    else if c = '\\' then
      match rest with
      | [] => none
      | e :: rest2 =>
        match unescapeChar e with
        | none => none
        | some ec =>
          match parseStrAux rest2 with
          | none => none
          | some (cs, r) => some (ec :: cs, r)
    else
      match parseStrAux rest with
      | none => none
      | some (cs, r) => some (c :: cs, r)

/-- Split a leading run of decimal digits. -/
def takeDigits (cs : List Char) : List Char × List Char :=
  (cs.takeWhile Char.isDigit, cs.dropWhile Char.isDigit)

/-- Numeric value of a digit run. -/
def digitsToNat (ds : List Char) : Nat :=
  ds.foldl (fun a c => a * 10 + (c.toNat - 48)) 0

/-- Check that the input starts with the given characters. -/
def expectChars : List Char → List Char → Option (List Char)
  | [], cs => some cs
  | _, [] => none
  | e :: es, c :: cs => if c = e then expectChars es cs else none

mutual

/-- Recursive-descent model of `JSON.parse`: parse one value.  The fuel
argument bounds recursion depth; `jsonParse` supplies enough for any
input it is given. -/
def parseVal : Nat → List Char → Option (JsonVal × List Char)
  | 0, _ => none
  | Nat.succ fuel, cs =>
    match skipWs cs with
    | [] => none
    | c :: rest =>
      if c = '"' then
        match parseStrAux rest with
        | some (chars, r) => some (JsonVal.jstr (String.mk chars), r)
        | none => none
      else if c = lbrace then
        match skipWs rest with
        | c2 :: r2 => if c2 = rbrace then some (JsonVal.jobj [], r2) else parseObjItems fuel rest []
        | [] => none
      else if c = '[' then
        match skipWs rest with
        | c2 :: r2 => if c2 = ']' then some (JsonVal.jarr [], r2) else parseArrItems fuel rest []
        | [] => none
      else if c = 'n' then
        match expectChars ['u', 'l', 'l'] rest with
        | some r => some (JsonVal.jnull, r)
        | none => none
      else if c = 't' then
        match expectChars ['r', 'u', 'e'] rest with
        | some r => some (JsonVal.jbool true, r)
        | none => none
      else if c = 'f' then
        match expectChars ['a', 'l', 's', 'e'] rest with
        | some r => some (JsonVal.jbool false, r)
        | none => none
      else if c = '-' then
        match takeDigits rest with
        | ([], _) => none
        | (ds, r) => some (JsonVal.jnum (-(digitsToNat ds : Int)), r)
      else if c.isDigit then
        match takeDigits (c :: rest) with
        | ([], _) => none
        | (ds, r) => some (JsonVal.jnum (digitsToNat ds : Int), r)
      else none

/-- Parse the items of a non-empty JSON array (input is positioned after
the opening bracket). -/
def parseArrItems : Nat → List Char → List JsonVal → Option (JsonVal × List Char)
  | 0, _, _ => none
  | Nat.succ fuel, cs, acc =>
    match parseVal fuel cs with
    | none => none
    | some (v, rest) =>
      match skipWs rest with
      | [] => none
      | c :: r2 =>
        if c = ',' then parseArrItems fuel r2 (acc ++ [v])
        else if c = ']' then some (JsonVal.jarr (acc ++ [v]), r2)
        else none

/-- Parse the fields of a non-empty JSON object (input is positioned
after the opening brace). -/
def parseObjItems : Nat → List Char → List (String × JsonVal) → Option (JsonVal × List Char)
  | 0, _, _ => none
  | Nat.succ fuel, cs, acc =>
    match skipWs cs with
    | [] => none
    | c :: rest =>
      if c = '"' then
        match parseStrAux rest with
        | none => none
        | some (kcs, r1) =>
          match skipWs r1 with
          | [] => none
          | c2 :: r2 =>
            if c2 = ':' then
              match parseVal fuel r2 with
              | none => none
              | some (v, r3) =>
                match skipWs r3 with
                | [] => none
                | c3 :: r4 =>
                  if c3 = ',' then parseObjItems fuel r4 (acc ++ [(String.mk kcs, v)])
                  else if c3 = rbrace then
                    some (JsonVal.jobj (acc ++ [(String.mk kcs, v)]), r4)
                  else none
            else none
      else none

end

/-- Model of `JSON.parse`: `none` models the thrown `SyntaxError` (every
call site wraps the call in try/catch). -/
def jsonParse (s : String) : Option JsonVal :=
  let cs := s.data
  match parseVal (2 * cs.length + 4) cs with
  | some (v, rest) => if (skipWs rest).isEmpty then some v else none
  | none => none

example : jsonParse "null" = some JsonVal.jnull := rfl
example : jsonParse "not json" = none := rfl
example : jsonParse (jsStringify (JsonVal.jarr [JsonVal.jobj [("type", JsonVal.jstr "function"), ("n", JsonVal.jnum 3)]]))
    = some (JsonVal.jarr [JsonVal.jobj [("type", JsonVal.jstr "function"), ("n", JsonVal.jnum 3)]]) := rfl

/-! ## JavaScript value semantics used by the code -/

/-- JS truthiness of a value (`if (content)`-style tests). -/
def jsTruthy : JsonVal → Bool
  | JsonVal.jnull => false
  | JsonVal.jbool b => b
  | JsonVal.jnum n => n != 0
  | JsonVal.jstr s => !s.isEmpty
  | JsonVal.jarr _ => true
  | JsonVal.jobj _ => true

/-- Property access `v.k`: `some` when `v` is an object carrying the
field, `none` models `undefined`. -/
def getField : JsonVal → String → Option JsonVal
  | JsonVal.jobj fs, k => (fs.find? fun p => p.1 == k).map Prod.snd
  | _, _ => none

/-- Truthiness of a possibly-`undefined` access (`v.k ? _ : _`). -/
def truthyOpt : Option JsonVal → Bool
  | none => false
  | some v => jsTruthy v

/-- JS `a || b` on a possibly-`undefined` value: keeps `a` when truthy,
else the default. -/
def jsOr (v : Option JsonVal) (dflt : JsonVal) : JsonVal :=
  match v with
  | some x => if jsTruthy x then x else dflt
  | none => dflt

mutual

/-- JS `ToString` of a value, as used by template-literal interpolation
(objects display as `[object Object]`, arrays join their elements). -/
def jsToStr : JsonVal → String
  | JsonVal.jnull => "null"
  | JsonVal.jbool true => "true"
  | JsonVal.jbool false => "false"
  | JsonVal.jnum n => toString n
  | JsonVal.jstr s => s
  | JsonVal.jarr xs => jsToStrItems xs
  | JsonVal.jobj _ => "[object Object]"

/-- JS `Array.prototype.toString`: elements joined by commas, with
`null` rendered empty. -/
def jsToStrItems : List JsonVal → String
  | [] => ""
  | [JsonVal.jnull] => ""
  | [x] => jsToStr x
  | JsonVal.jnull :: y :: xs => "," ++ jsToStrItems (y :: xs)
  | x :: y :: xs => jsToStr x ++ "," ++ jsToStrItems (y :: xs)

end

/-- Template interpolation of a possibly-`undefined` property access
(JS renders `undefined` literally). -/
def jsDisplay : Option JsonVal → String
  | none => "undefined"
  | some v => jsToStr v

/-! ## Tool service (`services/tool.server.js` and the chat route) -/

/-- One typed content block of a tool response (`\x7btype, text\x7d`);
`text` is an arbitrary JS value since `processProductSearchResult`
inspects its runtime type. -/
structure ContentBlock where
  btype : String
  text : JsonVal
deriving Repr

/-- The `content` field of a raw tool response: an array of typed
blocks, a plain string, or some other JS value. -/
inductive ToolContent where
  | arr : List ContentBlock → ToolContent
  | str : String → ToolContent
  | other : JsonVal → ToolContent
deriving Repr

/-- A raw tool response from `mcpClient.callTool`: either an error object
(`error.type`, `error.data`) or a success payload. -/
inductive ToolResponse where
  | error : String → String → ToolResponse
  | ok : ToolContent → ToolResponse
deriving Repr

/-- One caller-facing product summary as built by `formatProductData`.
Field values keep their JS runtime type except `price`, which the code
always builds as a string. -/
structure Product where
  id : JsonVal
  title : JsonVal
  price : String
  image_url : JsonVal
  description : JsonVal
  url : JsonVal
deriving Repr

/-- Price shown when `price_range` is falsy: the `variants` fallback of
`formatProductData`.  A non-empty string value for `variants` passes the
JS `.length > 0` test and indexes the first character, whose fields are
`undefined`. -/
def variantsPrice (product : JsonVal) : String :=
  match getField product "variants" with
  | some (JsonVal.jarr (v :: _)) =>
    jsDisplay (getField v "currency") ++ " " ++ jsDisplay (getField v "price")
  | some (JsonVal.jstr s) =>
    if s.isEmpty then "Price not available" else "undefined undefined"
  | _ => "Price not available"

/-- `formatProductData` from `tool.server.js`.  The random fallback id
(`product-` followed by `Math.random()` digits) is nondeterministic in
JS and modelled as the fixed marker `product-random`. -/
def formatProductData (product : JsonVal) : Product :=
  let price :=
    if truthyOpt (getField product "price_range") then
      match getField product "price_range" with
      | some pr => jsDisplay (getField pr "currency") ++ " " ++ jsDisplay (getField pr "min")
      | none => "Price not available"
    else variantsPrice product
  { id := jsOr (getField product "product_id") (JsonVal.jstr "product-random"),
    title := jsOr (getField product "title") (JsonVal.jstr "Product"),
    price := price,
    image_url := jsOr (getField product "image_url") (JsonVal.jstr ""),
    description := jsOr (getField product "description") (JsonVal.jstr ""),
    url := jsOr (getField product "url") (JsonVal.jstr "") }

/-- `AppConfig.tools.maxProductsToDisplay || 10`: the configuration value
is modelled as `Option Nat` (`none` when absent); JS `||` also replaces a
falsy `0`. -/
def maxProducts : Option Nat → Nat
  | none => 10
  | some n => if n == 0 then 10 else n

/-- The products projection of `processProductSearchResult`: up to the
configured maximum of entries of the parsed payload's `products` array,
formatted; anything else yields no products. -/
def productsOf (cfg : Option Nat) (responseData : Option JsonVal) : List Product :=
  match responseData with
  | some v =>
    match getField v "products" with
    | some (JsonVal.jarr ps) => (ps.take (maxProducts cfg)).map formatProductData
    | _ => []
  | none => []

/-- The `typeof`-directed resolution of `responseData` in
`processProductSearchResult`: an object or array is used directly, a
string goes through `JSON.parse` (whose failure is caught, leaving the
products empty — hence `none` folds into `productsOf`'s empty case), and
any other runtime type leaves `responseData` undefined. -/
def responseDataOf (blkText : JsonVal) : Option JsonVal :=
  match blkText with
  | JsonVal.jobj fs => some (JsonVal.jobj fs)
  | JsonVal.jarr xs => some (JsonVal.jarr xs)
  | JsonVal.jstr s => jsonParse s
  | _ => none

/-- See `responseDataOf` and `productsOf`: `processProductSearchResult`
from `tool.server.js`.  Non-array truthy `content` values make the JS
throw at `.find` and land in the outer catch, which returns `[]`; falsy
or block-less content returns `[]` through the guards. -/
def processProductSearchResult (cfg : Option Nat) : ToolResponse → List Product
  | ToolResponse.ok (ToolContent.arr blocks) =>
    if blocks.isEmpty then []
    else
      match blocks.find? fun b => b.btype == "text" with
      | none => []
      | some blk =>
        if jsTruthy blk.text then productsOf cfg (responseDataOf blk.text)
        else []
  | _ => []

/-- Normalization of a successful tool response into the tool-result
content string (inlined both in the route's `onToolUse` and in
`handleToolSuccess`): an array of blocks keeps the text-typed blocks'
text joined by newlines; a plain string passes through; anything else is
`JSON.stringify`ed.  `joinElemStr` is `Array.prototype.join`'s element
conversion (null renders empty). -/
def joinElemStr : JsonVal → String
  | JsonVal.jnull => ""
  | v => jsToStr v

/-- See `joinElemStr`'s comment: the tool-result content normalization
shared by `onToolUse` in the route and `handleToolSuccess` in
`tool.server.js`. -/
def toolResultContent : ToolContent → String
  | ToolContent.arr blocks =>
    String.intercalate "\n" ((blocks.filter fun b => b.btype == "text").map fun b => joinElemStr b.text)
  | ToolContent.str s => s
  | ToolContent.other v => jsStringify v

/-! ## The conversation loop (chat route `handleChatSession`)

The completion service is modelled as an arbitrary function from the
working history to an already-reassembled completion (the stream
accumulation in `streamConversation` concatenates text deltas and
argument fragments; the claims quantify over every possible completion
output, so the reassembled form is the interface).  Tool endpoints are
an arbitrary function from tool name and parsed arguments to a raw
response. -/

/-- One reassembled tool call of an assistant message
(`\x7bid, function: \x7bname, arguments\x7d\x7d`); `arguments` is the raw JSON
string accumulated from the stream. -/
structure ToolCallRaw where
  id : String
  name : String
  arguments : String
deriving Repr

/-- The reassembled output of one completion call: the text deltas in
arrival order and the tool-call list. -/
structure CompletionTurn where
  textChunks : List String
  tool_calls : List ToolCallRaw
deriving Repr

/-- A message of the working (in-memory) conversation history. -/
inductive Msg where
  | user : String → Msg
  | assistant : String → List ToolCallRaw → Msg
  | tool : String → String → Msg
deriving Repr

/-- The caller-visible stream events (`StreamEvent` union of the spec),
as sent by `stream.sendMessage` in the chat route. -/
inductive Event where
  | id : String → Event
  | chunk : String → Event
  | message_complete : Event
  | tool_use : String → Event
  | auth_required : Event
  | new_message : Event
  | end_turn : Event
  | product_results : List Product → Event
deriving Repr

/-- What one piece of the loop contributes: events sent, messages pushed
onto the working history, products accumulated for display — all in
order. -/
structure StepOut where
  events : List Event
  msgs : List Msg
  products : List Product
deriving Repr

/-- Concatenation of step contributions, preserving order. -/
def stepAppend (a b : StepOut) : StepOut :=
  { events := a.events ++ b.events,
    msgs := a.msgs ++ b.msgs,
    products := a.products ++ b.products }

/-- The type of the tool-endpoint script: `mcpClient.callTool` as a
function of tool name and parsed arguments. -/
def ToolScript : Type := String → JsonVal → ToolResponse

/-- The route's `onToolUse` handler for one reassembled tool call,
including the `JSON.parse` of its arguments done by `streamConversation`
before the handler is invoked: a parse failure is caught, logged and the
call skipped entirely (no event, no history entry).  Otherwise the
handler emits `tool_use`, calls the tool, on an `auth_required` error
additionally emits `auth_required`, pushes one `tool` message (error
text or normalized content), collects product summaries for
`search_shop_catalog`, and ends with `new_message`. -/
def onToolUse (cfg : Option Nat) (tools : ToolScript) (tc : ToolCallRaw) : StepOut :=
  match jsonParse tc.arguments with
  | none => { events := [], msgs := [], products := [] }
  | some args =>
    let tuEvent := Event.tool_use
      ("Calling tool: " ++ tc.name ++ " with arguments: " ++ jsStringify args)
    match tools tc.name args with
    | ToolResponse.error etype edata =>
      { events := tuEvent ::
          (if etype == "auth_required" then [Event.auth_required] else []) ++ [Event.new_message],
        msgs := [Msg.tool tc.id ("Error: " ++ edata)],
        products := [] }
    | ToolResponse.ok c =>
      { events := [tuEvent, Event.new_message],
        msgs := [Msg.tool tc.id (toolResultContent c)],
        products :=
          if tc.name == "search_shop_catalog"
          then processProductSearchResult cfg (ToolResponse.ok c) else [] }

/-- One completion round-trip: `streamConversation` with the route's
handlers inlined.  Every text delta is forwarded as a `chunk`; the final
assistant message (concatenated text plus the tool-call list) is pushed
and `message_complete` sent; then each tool call is dispatched through
`onToolUse` in order.  The boolean is the route's continue test
`response.tool_calls` non-empty. -/
def streamConversation (cfg : Option Nat) (tools : ToolScript) (turn : CompletionTurn) :
    StepOut × Bool :=
  let calls := turn.tool_calls.map (onToolUse cfg tools)
  ({ events := turn.textChunks.map Event.chunk ++ [Event.message_complete]
        ++ (calls.map StepOut.events).flatten,
     msgs := Msg.assistant (String.join turn.textChunks) turn.tool_calls
        :: (calls.map StepOut.msgs).flatten,
     products := (calls.map StepOut.products).flatten },
   !turn.tool_calls.isEmpty)

/-- The `while (iteration < maxIterations)` loop of `handleChatSession`:
fuel counts the remaining completion round-trips out of the hardcoded
ceiling of 10. -/
def conversationLoop (cfg : Option Nat) (tools : ToolScript)
    (completions : List Msg → CompletionTurn) : Nat → List Msg → StepOut
  | 0, _ => { events := [], msgs := [], products := [] }
  | Nat.succ fuel, hist =>
    let p := streamConversation cfg tools (completions hist)
    if p.2 then stepAppend p.1 (conversationLoop cfg tools completions fuel (hist ++ p.1.msgs))
    else p.1

/-- `maxIterations` in the chat route. -/
def maxIterations : Nat := 10

/-- `handleChatSession` as an event-trace generator: seeds the working
history with the truncated history plus the new user message, sends
`id`, runs the loop, then sends `end_turn` and — after it — one
`product_results` event when any products were accumulated. -/
def handleChatSession (cfg : Option Nat) (tools : ToolScript)
    (completions : List Msg → CompletionTurn) (initHistory : List Msg)
    (conversationId userMessage : String) : List Event :=
  let out := conversationLoop cfg tools completions maxIterations
    (initHistory ++ [Msg.user userMessage])
  Event.id conversationId :: out.events ++ [Event.end_turn]
    ++ (if out.products.length > 0 then [Event.product_results out.products] else [])

/-! ## History truncation (`getTruncatedHistory` in the chat route) -/

/-- A message as stored by `saveMessage` and returned by
`getConversationHistory`: a role string and a content string. -/
structure StoredMsg where
  role : String
  content : String
deriving Repr

/-- A message of the list `getTruncatedHistory` returns. -/
structure OutMsg where
  role : String
  content : String
deriving Repr

/-- The filter predicate of `getTruncatedHistory`: drop `system` and
`tool` roles; drop assistant messages whose parsed content is an array
whose every element has `type === 'tool_use'`; drop user messages whose
parsed content is an array with some `type === 'tool_result'` element; a
parse failure skips both checks; finally keep only `user`/`assistant`
roles.  `hasTypeStr` is the strict equality test `c.type === t` (true
only when the field is that exact string). -/
def hasTypeStr (c : JsonVal) (t : String) : Bool :=
  match getField c "type" with
  | some (JsonVal.jstr s) => s == t
  | _ => false

/-- See `hasTypeStr`: the filter predicate of `getTruncatedHistory`. -/
def keepMsg (m : StoredMsg) : Bool :=
  if m.role == "system" || m.role == "tool" then false
  else
    match jsonParse m.content with
    | some (JsonVal.jarr items) =>
      if m.role == "assistant" && items.all (fun c => hasTypeStr c "tool_use") then false
      else if m.role == "user" && items.any (fun c => hasTypeStr c "tool_result") then false
      else m.role == "user" || m.role == "assistant"
    | _ => m.role == "user" || m.role == "assistant"

/-- The formatting map of `getTruncatedHistory`: parsed string content
is used directly, other parsed content is re-stringified, unparseable
content passes through raw. -/
def formatMsg (m : StoredMsg) : OutMsg :=
  match jsonParse m.content with
  | some (JsonVal.jstr s) => { role := m.role, content := s }
  | some v => { role := m.role, content := jsStringify v }
  | none => { role := m.role, content := m.content }

/-- JS `Array.prototype.slice(-4)`: the last four elements (all of them
when fewer). -/
def lastFour (l : List StoredMsg) : List StoredMsg :=
  l.drop (l.length - 4)

/-- `getTruncatedHistory`: the stored-message load is modelled by an
`Except` input (`Except.error` models `getConversationHistory` or any
later step throwing, caught by the surrounding try/catch which returns
`[]`). -/
def getTruncatedHistory (db : Except String (List StoredMsg)) : List OutMsg :=
  match db with
  | Except.error _ => []
  | Except.ok msgs => (lastFour (msgs.filter keepMsg)).map formatMsg

/-- How `onMessage` in the route persists an assistant message:
`JSON.stringify(message.content || message.tool_calls)`.  An empty
content string is falsy, so a tool-call-only completion stores the
stringified tool-call array (each call serialized with its OpenAI shape
`type: 'function'`); when both are empty `JSON.stringify(undefined)` is
`undefined`, modelled as `none`. -/
def toolCallJson (tc : ToolCallRaw) : JsonVal :=
  JsonVal.jobj [("id", JsonVal.jstr tc.id), ("type", JsonVal.jstr "function"),
    ("function", JsonVal.jobj [("name", JsonVal.jstr tc.name),
      ("arguments", JsonVal.jstr tc.arguments)])]

/-- See `toolCallJson`: the stored content of a persisted assistant
message. -/
def savedAssistantContent (content : String) (tool_calls : List ToolCallRaw) : Option String :=
  if content == "" then
    if tool_calls.isEmpty then none
    else some (jsStringify (JsonVal.jarr (tool_calls.map toolCallJson)))
  else some (jsStringify (JsonVal.jstr content))

/-! ## Observations on event traces -/

/-- Is this a `tool_use` event? -/
def Event.isToolUse : Event → Bool
  | Event.tool_use _ => true
  | _ => false

/-- Is this a `chunk` event? -/
def Event.isChunk : Event → Bool
  | Event.chunk _ => true
  | _ => false

/-- Is this a `message_complete` event (one is emitted per completion
call, so it counts the completion round-trips)? -/
def Event.isMessageComplete : Event → Bool
  | Event.message_complete => true
  | _ => false

/-- Is this the `end_turn` event? -/
def Event.isEndTurn : Event → Bool
  | Event.end_turn => true
  | _ => false

/-- Is this neither a `chunk` nor a `tool_use` event? -/
def notChunkOrToolUse (e : Event) : Bool :=
  !(e.isChunk || e.isToolUse)

/-- Is this a `tool`-role message of the working history? -/
def Msg.isToolMsg : Msg → Bool
  | Msg.tool _ _ => true
  | _ => false

/-- The events strictly after the first `end_turn` of a trace (empty
when there is none). -/
def tailAfterEndTurn : List Event → List Event
  | [] => []
  | Event.end_turn :: rest => rest
  | _ :: rest => tailAfterEndTurn rest

/-- Every `tool_use` event of the trace is immediately followed either
by `new_message` or by `auth_required` and then `new_message`, before
anything else happens. -/
def toolUseFollowed : List Event → Bool
  | [] => true
  | Event.tool_use _ :: Event.new_message :: rest => toolUseFollowed rest
  | Event.tool_use _ :: Event.auth_required :: Event.new_message :: rest => toolUseFollowed rest
  | Event.tool_use _ :: _ => false
  | _ :: rest => toolUseFollowed rest

/-- Traces assembled from the loop's atomic emissions: arbitrary
non-`tool_use` events, and the two complete tool-dispatch patterns. -/
inductive EventAtoms : List Event → Prop where
  | nil : EventAtoms []
  | nonTool : ∀ (e : Event) (rest : List Event), e.isToolUse = false →
      EventAtoms rest → EventAtoms (e :: rest)
  | toolNM : ∀ (m : String) (rest : List Event),
      EventAtoms rest → EventAtoms (Event.tool_use m :: Event.new_message :: rest)
  | toolANM : ∀ (m : String) (rest : List Event),
      EventAtoms rest →
      EventAtoms (Event.tool_use m :: Event.auth_required :: Event.new_message :: rest)

/-! ## Concrete scripts used to evaluate the code at specific inputs -/

/-- A tool endpoint script that always fails generically. -/
def toolsNone : ToolScript := fun _ _ => ToolResponse.error "other" "no tools"

/-- A tool call whose `arguments` string is not valid JSON. -/
def badArgsCall : ToolCallRaw :=
  { id := "call_1", name := "search_shop_catalog", arguments := "oops" }

/-- A completion whose final message requests exactly the malformed
call. -/
def badArgsTurn : CompletionTurn := { textChunks := [], tool_calls := [badArgsCall] }

/-- A completion service that requests the malformed call on the first
round-trip and then answers with plain text. -/
def svcBadArgs : List Msg → CompletionTurn := fun hist =>
  if hist.length == 1 then badArgsTurn else { textChunks := ["done"], tool_calls := [] }

/-- One product object as a catalog-search payload carries it. -/
def searchProduct : JsonVal :=
  JsonVal.jobj [("product_id", JsonVal.jstr "p1"), ("title", JsonVal.jstr "Red Shoe"),
    ("price_range", JsonVal.jobj [("currency", JsonVal.jstr "USD"), ("min", JsonVal.jnum 49)]),
    ("image_url", JsonVal.jstr "img"), ("description", JsonVal.jstr "a red shoe"),
    ("url", JsonVal.jstr "shop/p1")]

/-- A catalog-search payload carrying one product. -/
def productPayload : JsonVal := JsonVal.jobj [("products", JsonVal.jarr [searchProduct])]

/-- A tool endpoint script whose catalog search returns
`productPayload` as a text block. -/
def toolsSearch : ToolScript := fun name _ =>
  if name == "search_shop_catalog" then
    ToolResponse.ok (ToolContent.arr
      [{ btype := "text", text := JsonVal.jstr (jsStringify productPayload) }])
  else ToolResponse.error "other" "unknown tool"

/-- A well-formed catalog-search tool call. -/
def searchCall : ToolCallRaw :=
  { id := "call_2", name := "search_shop_catalog",
    arguments := jsStringify (JsonVal.jobj [("query", JsonVal.jstr "red shoes")]) }

/-- A completion service that requests the catalog search on the first
round-trip and then answers with plain text. -/
def svcSearch : List Msg → CompletionTurn := fun hist =>
  if hist.length == 1 then { textChunks := [], tool_calls := [searchCall] }
  else { textChunks := ["Here you go"], tool_calls := [] }

/-- The event trace of the catalog-search session. -/
def searchEvents : List Event := handleChatSession none toolsSearch svcSearch [] "c1" "red shoes"

/-- A stored plain user message. -/
def storedUserHi : StoredMsg := { role := "user", content := jsStringify (JsonVal.jstr "hi") }

/-- The stored form of the assistant message the loop persists after a
completion that returned only the catalog-search tool call and no
text. -/
def storedToolCallOnly : StoredMsg :=
  { role := "assistant", content := jsStringify (JsonVal.jarr [toolCallJson searchCall]) }

/-- A tool call with trivially parseable arguments, for witnesses. -/
def tcW : ToolCallRaw := { id := "w1", name := "t", arguments := "null" }

/-- A tool endpoint script returning mixed typed content blocks, for
witnesses. -/
def toolsW : ToolScript := fun _ _ =>
  ToolResponse.ok (ToolContent.arr
    [{ btype := "text", text := JsonVal.jstr "a" },
     { btype := "image", text := JsonVal.jstr "ignored" },
     { btype := "text", text := JsonVal.jstr "b" }])

/-- A tool response whose text block is not valid JSON. -/
def respBadParse : ToolResponse :=
  ToolResponse.ok (ToolContent.arr [{ btype := "text", text := JsonVal.jstr "not json" }])

/-! ## Structural lemmas about the loop's emissions -/

theorem onToolUse_events_cases (cfg : Option Nat) (tools : ToolScript) (tc : ToolCallRaw) :
    (onToolUse cfg tools tc).events = [] ∨
    (∃ m, (onToolUse cfg tools tc).events = [Event.tool_use m, Event.new_message]) ∨
    (∃ m, (onToolUse cfg tools tc).events
        = [Event.tool_use m, Event.auth_required, Event.new_message]) := by
  unfold onToolUse
  cases h : jsonParse tc.arguments with
  | none => exact Or.inl rfl
  | some args =>
    dsimp only
    cases h2 : tools tc.name args with
    | ok c => exact Or.inr (Or.inl ⟨_, rfl⟩)
    | error etype edata =>
      by_cases ha : (etype == "auth_required") = true
      · exact Or.inr (Or.inr ⟨"Calling tool: " ++ tc.name ++ " with arguments: "
          ++ jsStringify args, by simp [ha]⟩)
      · exact Or.inr (Or.inl ⟨"Calling tool: " ++ tc.name ++ " with arguments: "
          ++ jsStringify args, by simp [ha]⟩)

theorem onToolUse_toolUse_count (cfg : Option Nat) (tools : ToolScript) (tc : ToolCallRaw) :
    (onToolUse cfg tools tc).events.countP Event.isToolUse
      = if (jsonParse tc.arguments).isSome then 1 else 0 := by
  unfold onToolUse
  cases h : jsonParse tc.arguments with
  | none => rfl
  | some args =>
    dsimp only
    cases h2 : tools tc.name args with
    | ok c => rfl
    | error etype edata =>
      by_cases ha : (etype == "auth_required") = true <;>
        simp [ha, List.countP_cons, Event.isToolUse]

theorem onToolUse_no_mc (cfg : Option Nat) (tools : ToolScript) (tc : ToolCallRaw) :
    (onToolUse cfg tools tc).events.countP Event.isMessageComplete = 0 := by
  rcases onToolUse_events_cases cfg tools tc with h | ⟨m, h⟩ | ⟨m, h⟩ <;>
    simp [h, List.countP_cons, Event.isMessageComplete]

theorem onToolUse_no_endTurn (cfg : Option Nat) (tools : ToolScript) (tc : ToolCallRaw) :
    (onToolUse cfg tools tc).events.countP Event.isEndTurn = 0 := by
  rcases onToolUse_events_cases cfg tools tc with h | ⟨m, h⟩ | ⟨m, h⟩ <;>
    simp [h, List.countP_cons, Event.isEndTurn]

theorem onToolUse_msgs_count (cfg : Option Nat) (tools : ToolScript) (tc : ToolCallRaw) :
    (onToolUse cfg tools tc).msgs.countP Msg.isToolMsg
      = if (jsonParse tc.arguments).isSome then 1 else 0 := by
  unfold onToolUse
  cases h : jsonParse tc.arguments with
  | none => rfl
  | some args =>
    dsimp only
    cases h2 : tools tc.name args with
    | ok c => rfl
    | error etype edata =>
      by_cases ha : (etype == "auth_required") = true <;>
        simp [ha, List.countP_cons, Msg.isToolMsg]

theorem countP_flatten_eq {α : Type} (p : α → Bool) (L : List (List α)) :
    L.flatten.countP p = (L.map fun l => l.countP p).sum := by
  induction L with
  | nil => rfl
  | cons l L ih => simp [List.countP_append, ih]

theorem chunks_countP_toolUse (ss : List String) :
    (ss.map Event.chunk).countP Event.isToolUse = 0 := by
  induction ss with
  | nil => rfl
  | cons s ss ih => simp [List.countP_cons, Event.isToolUse, ih]

theorem chunks_countP_mc (ss : List String) :
    (ss.map Event.chunk).countP Event.isMessageComplete = 0 := by
  induction ss with
  | nil => rfl
  | cons s ss ih => simp [List.countP_cons, Event.isMessageComplete, ih]

theorem chunks_countP_endTurn (ss : List String) :
    (ss.map Event.chunk).countP Event.isEndTurn = 0 := by
  induction ss with
  | nil => rfl
  | cons s ss ih => simp [List.countP_cons, Event.isEndTurn, ih]

theorem sum_events_countP (p : Event → Bool) (cfg : Option Nat) (tools : ToolScript)
    (l : List ToolCallRaw) :
    (((l.map (onToolUse cfg tools)).map StepOut.events).map fun es => es.countP p).sum
      = (l.map fun tc => (onToolUse cfg tools tc).events.countP p).sum := by
  induction l with
  | nil => rfl
  | cons tc l ih => simp only [List.map_cons, List.sum_cons, ih]

theorem sum_msgs_countP (p : Msg → Bool) (cfg : Option Nat) (tools : ToolScript)
    (l : List ToolCallRaw) :
    (((l.map (onToolUse cfg tools)).map StepOut.msgs).map fun ms => ms.countP p).sum
      = (l.map fun tc => (onToolUse cfg tools tc).msgs.countP p).sum := by
  induction l with
  | nil => rfl
  | cons tc l ih => simp only [List.map_cons, List.sum_cons, ih]

theorem sum_if_isSome (l : List ToolCallRaw) (f : ToolCallRaw → Nat)
    (hf : ∀ tc, f tc = if (jsonParse tc.arguments).isSome then 1 else 0) :
    (l.map f).sum = (l.filter fun tc => (jsonParse tc.arguments).isSome).length := by
  induction l with
  | nil => rfl
  | cons tc l ih =>
    rw [List.map_cons, List.sum_cons, ih, hf tc, List.filter_cons]
    by_cases h : (jsonParse tc.arguments).isSome
    · simp [h, Nat.add_comm]
    · simp [h]

theorem streamConversation_toolUse_count (cfg : Option Nat) (tools : ToolScript)
    (turn : CompletionTurn) :
    (streamConversation cfg tools turn).1.events.countP Event.isToolUse
      = (turn.tool_calls.filter fun tc => (jsonParse tc.arguments).isSome).length := by
  unfold streamConversation
  dsimp only
  rw [List.countP_append, List.countP_append, countP_flatten_eq, chunks_countP_toolUse,
    sum_events_countP, sum_if_isSome turn.tool_calls _ (onToolUse_toolUse_count cfg tools)]
  simp [List.countP_cons, Event.isToolUse]

theorem streamConversation_mc_count (cfg : Option Nat) (tools : ToolScript)
    (turn : CompletionTurn) :
    (streamConversation cfg tools turn).1.events.countP Event.isMessageComplete = 1 := by
  unfold streamConversation
  dsimp only
  rw [List.countP_append, List.countP_append, countP_flatten_eq, chunks_countP_mc,
    sum_events_countP]
  have hz : (turn.tool_calls.map
      fun tc => (onToolUse cfg tools tc).events.countP Event.isMessageComplete).sum = 0 := by
    apply List.sum_eq_zero
    intro x hx
    rcases List.mem_map.mp hx with ⟨tc, _, rfl⟩
    exact onToolUse_no_mc cfg tools tc
  rw [hz]
  simp [List.countP_cons, Event.isMessageComplete]

theorem streamConversation_endTurn_count (cfg : Option Nat) (tools : ToolScript)
    (turn : CompletionTurn) :
    (streamConversation cfg tools turn).1.events.countP Event.isEndTurn = 0 := by
  unfold streamConversation
  dsimp only
  rw [List.countP_append, List.countP_append, countP_flatten_eq, chunks_countP_endTurn,
    sum_events_countP]
  have hz : (turn.tool_calls.map
      fun tc => (onToolUse cfg tools tc).events.countP Event.isEndTurn).sum = 0 := by
    apply List.sum_eq_zero
    intro x hx
    rcases List.mem_map.mp hx with ⟨tc, _, rfl⟩
    exact onToolUse_no_endTurn cfg tools tc
  rw [hz]
  simp [List.countP_cons, Event.isEndTurn]

theorem streamConversation_toolMsg_count (cfg : Option Nat) (tools : ToolScript)
    (turn : CompletionTurn) :
    (streamConversation cfg tools turn).1.msgs.countP Msg.isToolMsg
      = (turn.tool_calls.filter fun tc => (jsonParse tc.arguments).isSome).length := by
  unfold streamConversation
  dsimp only
  rw [List.countP_cons, countP_flatten_eq, sum_msgs_countP,
    sum_if_isSome turn.tool_calls _ (onToolUse_msgs_count cfg tools)]
  simp [Msg.isToolMsg]

theorem conversationLoop_mc_le (cfg : Option Nat) (tools : ToolScript)
    (completions : List Msg → CompletionTurn) :
    ∀ (fuel : Nat) (hist : List Msg),
      (conversationLoop cfg tools completions fuel hist).events.countP Event.isMessageComplete
        ≤ fuel := by
  intro fuel
  induction fuel with
  | zero => intro hist; simp [conversationLoop]
  | succ n ih =>
    intro hist
    unfold conversationLoop
    dsimp only
    by_cases h2 : (streamConversation cfg tools (completions hist)).2 = true
    · rw [if_pos h2]
      dsimp only [stepAppend]
      rw [List.countP_append, streamConversation_mc_count]
      have := ih (hist ++ (streamConversation cfg tools (completions hist)).1.msgs)
      omega
    · rw [if_neg h2, streamConversation_mc_count]
      omega

theorem conversationLoop_no_endTurn (cfg : Option Nat) (tools : ToolScript)
    (completions : List Msg → CompletionTurn) :
    ∀ (fuel : Nat) (hist : List Msg),
      (conversationLoop cfg tools completions fuel hist).events.countP Event.isEndTurn = 0 := by
  intro fuel
  induction fuel with
  | zero => intro hist; simp [conversationLoop]
  | succ n ih =>
    intro hist
    unfold conversationLoop
    dsimp only
    by_cases h2 : (streamConversation cfg tools (completions hist)).2 = true
    · rw [if_pos h2]
      dsimp only [stepAppend]
      rw [List.countP_append, streamConversation_endTurn_count]
      have := ih (hist ++ (streamConversation cfg tools (completions hist)).1.msgs)
      omega
    · rw [if_neg h2, streamConversation_endTurn_count]

theorem eventAtoms_append {a b : List Event} (ha : EventAtoms a) (hb : EventAtoms b) :
    EventAtoms (a ++ b) := by
  induction ha with
  | nil => exact hb
  | nonTool e rest h _ ih => exact EventAtoms.nonTool e _ h ih
  | toolNM m rest _ ih => exact EventAtoms.toolNM m _ ih
  | toolANM m rest _ ih => exact EventAtoms.toolANM m _ ih

theorem eventAtoms_of_nonTool {l : List Event} (h : ∀ e ∈ l, e.isToolUse = false) :
    EventAtoms l := by
  induction l with
  | nil => exact EventAtoms.nil
  | cons e rest ih =>
    exact EventAtoms.nonTool e rest (h e (by simp)) (ih fun x hx => h x (by simp [hx]))

theorem eventAtoms_toolUseFollowed {l : List Event} (h : EventAtoms l) :
    toolUseFollowed l = true := by
  induction h with
  | nil => rfl
  | nonTool e rest he _ ih =>
    cases e <;> first
      | exact ih
      | simp [Event.isToolUse] at he
  | toolNM m rest _ ih => exact ih
  | toolANM m rest _ ih => exact ih

theorem onToolUse_atoms (cfg : Option Nat) (tools : ToolScript) (tc : ToolCallRaw) :
    EventAtoms (onToolUse cfg tools tc).events := by
  rcases onToolUse_events_cases cfg tools tc with h | ⟨m, h⟩ | ⟨m, h⟩ <;> rw [h]
  · exact EventAtoms.nil
  · exact EventAtoms.toolNM m _ EventAtoms.nil
  · exact EventAtoms.toolANM m _ EventAtoms.nil

theorem flatten_atoms (L : List (List Event)) (h : ∀ l ∈ L, EventAtoms l) :
    EventAtoms L.flatten := by
  induction L with
  | nil => exact EventAtoms.nil
  | cons l L ih =>
    rw [List.flatten_cons]
    exact eventAtoms_append (h l (by simp)) (ih fun x hx => h x (by simp [hx]))

theorem streamConversation_atoms (cfg : Option Nat) (tools : ToolScript)
    (turn : CompletionTurn) :
    EventAtoms (streamConversation cfg tools turn).1.events := by
  unfold streamConversation
  dsimp only
  refine eventAtoms_append (eventAtoms_append ?_ ?_) ?_
  · exact eventAtoms_of_nonTool fun e he => by
      rcases List.mem_map.mp he with ⟨s, _, rfl⟩
      rfl
  · exact eventAtoms_of_nonTool fun e he => by
      rcases List.mem_singleton.mp he with rfl
      rfl
  · refine flatten_atoms _ fun l hl => ?_
    rcases List.mem_map.mp hl with ⟨st, hst, rfl⟩
    rcases List.mem_map.mp hst with ⟨tc, _, rfl⟩
    exact onToolUse_atoms cfg tools tc

theorem conversationLoop_atoms (cfg : Option Nat) (tools : ToolScript)
    (completions : List Msg → CompletionTurn) :
    ∀ (fuel : Nat) (hist : List Msg),
      EventAtoms (conversationLoop cfg tools completions fuel hist).events := by
  intro fuel
  induction fuel with
  | zero => intro hist; exact EventAtoms.nil
  | succ n ih =>
    intro hist
    unfold conversationLoop
    dsimp only
    by_cases h2 : (streamConversation cfg tools (completions hist)).2 = true
    · rw [if_pos h2]
      exact eventAtoms_append (streamConversation_atoms cfg tools (completions hist))
        (ih (hist ++ (streamConversation cfg tools (completions hist)).1.msgs))
    · rw [if_neg h2]
      exact streamConversation_atoms cfg tools (completions hist)

theorem handleChatSession_atoms (cfg : Option Nat) (tools : ToolScript)
    (completions : List Msg → CompletionTurn) (initHistory : List Msg)
    (cid umsg : String) :
    EventAtoms (handleChatSession cfg tools completions initHistory cid umsg) := by
  unfold handleChatSession
  dsimp only
  refine EventAtoms.nonTool _ _ rfl
    (eventAtoms_append
      (eventAtoms_append (conversationLoop_atoms _ _ _ _ _) (eventAtoms_of_nonTool ?_))
      (eventAtoms_of_nonTool ?_))
  · intro e he
    rcases List.mem_singleton.mp he with rfl
    rfl
  · intro e he
    split at he
    · rcases List.mem_singleton.mp he with rfl
      rfl
    · simp at he

theorem tailAfter_append_of_no_endTurn :
    ∀ (l t : List Event), l.countP Event.isEndTurn = 0 →
      tailAfterEndTurn (l ++ Event.end_turn :: t) = t := by
  intro l
  induction l with
  | nil => intro t _; rfl
  | cons e rest ih =>
    intro t h
    rw [List.countP_cons] at h
    have h' : rest.countP Event.isEndTurn = 0 := Nat.eq_zero_of_add_eq_zero_right h
    cases e with
    | end_turn => simp [Event.isEndTurn] at h
    | id s => exact ih t h'
    | chunk s => exact ih t h'
    | message_complete => exact ih t h'
    | tool_use m => exact ih t h'
    | auth_required => exact ih t h'
    | new_message => exact ih t h'
    | product_results ps => exact ih t h'

theorem session_endTurn_count (cfg : Option Nat) (tools : ToolScript)
    (completions : List Msg → CompletionTurn) (init : List Msg) (cid umsg : String) :
    (handleChatSession cfg tools completions init cid umsg).countP Event.isEndTurn = 1 := by
  unfold handleChatSession
  dsimp only
  rw [List.countP_append, List.countP_append, List.countP_cons, conversationLoop_no_endTurn]
  split <;> split <;> simp_all [Event.isEndTurn, List.countP_cons]

theorem session_tailAfter (cfg : Option Nat) (tools : ToolScript)
    (completions : List Msg → CompletionTurn) (init : List Msg) (cid umsg : String) :
    (tailAfterEndTurn (handleChatSession cfg tools completions init cid umsg)).all
      notChunkOrToolUse = true := by
  unfold handleChatSession
  dsimp only
  rw [List.append_assoc, List.singleton_append, tailAfter_append_of_no_endTurn]
  · split
    · rfl
    · rfl
  · rw [List.countP_cons, conversationLoop_no_endTurn]
    rfl

theorem keepMsg_role {m : StoredMsg} (h : keepMsg m = true) :
    (m.role == "user" || m.role == "assistant") = true := by
  unfold keepMsg at h
  split at h
  · simp at h
  · split at h
    · split at h
      · simp at h
      · split at h
        · simp at h
        · exact h
    · exact h

theorem formatMsg_role (m : StoredMsg) : (formatMsg m).role = m.role := by
  unfold formatMsg
  split <;> rfl

theorem session_mc_le (cfg : Option Nat) (tools : ToolScript)
    (completions : List Msg → CompletionTurn) (init : List Msg) (cid umsg : String) :
    (handleChatSession cfg tools completions init cid umsg).countP Event.isMessageComplete
      ≤ maxIterations := by
  unfold handleChatSession
  dsimp only
  rw [List.countP_append, List.countP_append, List.countP_cons]
  have h := conversationLoop_mc_le cfg tools completions maxIterations (init ++ [Msg.user umsg])
  split <;> split <;> simp_all [Event.isMessageComplete, List.countP_cons]

/-! ## Claims -/

/-- C1, counterexample: the claim says the number of `tool_use` events
equals the number of tool-call requests in the preceding completion.  In
the session driven by `svcBadArgs`, the first completion's final message
carries one tool-call request, but its `arguments` string is not valid
JSON, so `streamConversation`'s `JSON.parse` throws, the error is caught
and logged, and `onToolUse` is never invoked: the whole trace contains
zero `tool_use` events. -/
theorem C1_counterexample :
    (svcBadArgs [Msg.user "hi"]).tool_calls.length = 1 ∧
    (handleChatSession none toolsNone svcBadArgs [] "c0" "hi").countP Event.isToolUse = 0 := by
  exact ⟨rfl, rfl⟩

/-- C1, amended: for every completion round-trip, the number of
`tool_use` events equals the number of tool-call requests whose
arguments parse as JSON (a malformed call emits no `tool_use`); and in
the whole trace every `tool_use` is followed immediately by
`new_message`, or by `auth_required` and then `new_message` when the
tool demanded authorization (so an auth-required call emits both events,
not exactly one). -/
theorem C1_tool_use_pairing_amended (cfg : Option Nat) (tools : ToolScript)
    (completions : List Msg → CompletionTurn) (init : List Msg) (cid umsg : String) :
    toolUseFollowed (handleChatSession cfg tools completions init cid umsg) = true ∧
    ∀ turn : CompletionTurn,
      (streamConversation cfg tools turn).1.events.countP Event.isToolUse
        = (turn.tool_calls.filter fun tc => (jsonParse tc.arguments).isSome).length :=
  ⟨eventAtoms_toolUseFollowed (handleChatSession_atoms cfg tools completions init cid umsg),
   fun turn => streamConversation_toolUse_count cfg tools turn⟩

/-- C2, counterexample: the claim says an assistant message carrying N
tool-call requests yields exactly N tool-result messages appended to the
working history, a malformed call still getting an error result.  For
the completion `badArgsTurn` (one request, malformed arguments) the
round-trip appends zero tool-role messages: the `JSON.parse` failure is
caught before `onToolUse` runs, so no error result is appended either. -/
theorem C2_counterexample :
    badArgsTurn.tool_calls.length = 1 ∧
    (streamConversation none toolsNone badArgsTurn).1.msgs.countP Msg.isToolMsg = 0 := by
  exact ⟨rfl, rfl⟩

/-- C2, amended: the number of tool-result messages appended to the
working history before the next completion call equals the number of
tool-call requests whose arguments parse as JSON; a call with malformed
arguments is skipped with no result appended at all. -/
theorem C2_tool_result_count_amended (cfg : Option Nat) (tools : ToolScript)
    (turn : CompletionTurn) :
    (streamConversation cfg tools turn).1.msgs.countP Msg.isToolMsg
      = (turn.tool_calls.filter fun tc => (jsonParse tc.arguments).isSome).length :=
  streamConversation_toolMsg_count cfg tools turn

set_option maxRecDepth 100000 in
/-- C3: evaluating the route on a catalog-search session that
accumulates one product, the trace contains exactly one `end_turn` and
the `product_results` event appears strictly after it — the code sends
`end_turn` first and only then flushes the side payload, contradicting
the claim that `product_results` is never emitted after `end_turn`. -/
theorem C3_product_results_after_end_turn :
    searchEvents.countP Event.isEndTurn = 1 ∧
    tailAfterEndTurn searchEvents = [Event.product_results [formatProductData searchProduct]] := by
  exact ⟨rfl, rfl⟩

/-- C4: in every session, `end_turn` is emitted exactly once and no
`chunk` and no `tool_use` event follows it (the embedding covers runs in
which the transport and completion service do not throw; §4.5 of the
spec scopes event delivery to such runs). -/
theorem C4_end_turn_once_nothing_after (cfg : Option Nat) (tools : ToolScript)
    (completions : List Msg → CompletionTurn) (init : List Msg) (cid umsg : String) :
    (handleChatSession cfg tools completions init cid umsg).countP Event.isEndTurn = 1 ∧
    (tailAfterEndTurn (handleChatSession cfg tools completions init cid umsg)).all
      notChunkOrToolUse = true :=
  ⟨session_endTurn_count cfg tools completions init cid umsg,
   session_tailAfter cfg tools completions init cid umsg⟩

/-- C5: for every completion service — including one that requests a
tool call on every round-trip — the loop performs at most
`maxIterations = 10` completion round-trips (counted by their
`message_complete` events) and still emits `end_turn`. -/
theorem C5_iteration_ceiling (cfg : Option Nat) (tools : ToolScript)
    (completions : List Msg → CompletionTurn) (init : List Msg) (cid umsg : String) :
    (handleChatSession cfg tools completions init cid umsg).countP Event.isMessageComplete
        ≤ maxIterations ∧
    (handleChatSession cfg tools completions init cid umsg).countP Event.isEndTurn = 1 :=
  ⟨session_mc_le cfg tools completions init cid umsg,
   session_endTurn_count cfg tools completions init cid umsg⟩

/-- C6: for every stored conversation (and also when the load fails),
the truncated history contains at most 4 messages and every one of them
has role `user` or `assistant` — in particular no `system` or `tool`
entry. -/
theorem C6_truncated_history_bounded (db : Except String (List StoredMsg)) :
    (getTruncatedHistory db).length ≤ 4 ∧
    (getTruncatedHistory db).all (fun m => m.role == "user" || m.role == "assistant") = true := by
  cases db with
  | error e => exact ⟨by simp [getTruncatedHistory], by simp [getTruncatedHistory]⟩
  | ok msgs =>
    constructor
    · show ((lastFour (msgs.filter keepMsg)).map formatMsg).length ≤ 4
      rw [List.length_map]
      unfold lastFour
      rw [List.length_drop]
      omega
    · rw [List.all_eq_true]
      intro m hm
      have hm' : m ∈ (lastFour (msgs.filter keepMsg)).map formatMsg := hm
      rcases List.mem_map.mp hm' with ⟨sm, hsm, rfl⟩
      have h1 : sm ∈ msgs.filter keepMsg := List.mem_of_mem_drop hsm
      have h2 := List.of_mem_filter h1
      rw [formatMsg_role]
      exact keepMsg_role h2

set_option maxRecDepth 100000 in
/-- C7: the loop persists a tool-call-only assistant message as the
stringified OpenAI-format tool-call array (each element tagged
`type: 'function'`), but the truncation filter only drops assistant
arrays whose every element is tagged `type: 'tool_use'` — so exactly the
messages the loop itself persists survive truncation, contradicting the
claim that every tool-call-only assistant message is dropped. -/
theorem C7_tool_call_only_assistant_survives :
    savedAssistantContent "" [searchCall] = some storedToolCallOnly.content ∧
    getTruncatedHistory (Except.ok [storedUserHi, storedToolCallOnly])
      = [{ role := "user", content := "hi" },
         { role := "assistant", content := storedToolCallOnly.content }] := by
  exact ⟨rfl, rfl⟩

/-- C8: for every successful tool response, the content of the single
tool-result message appended to the working history is the claimed
normalization — text-typed blocks' text joined by newline with non-text
blocks discarded when the payload is a block list, else the payload
itself when it is already a string (JS string conversion is the
identity), else its `JSON.stringify`. -/
theorem C8_tool_result_normalization (cfg : Option Nat) (tools : ToolScript)
    (tc : ToolCallRaw) (args : JsonVal) (c : ToolContent)
    (h1 : jsonParse tc.arguments = some args)
    (h2 : tools tc.name args = ToolResponse.ok c) :
    (onToolUse cfg tools tc).msgs = [Msg.tool tc.id
      ((fun content => match content with
        | ToolContent.arr blocks => String.intercalate "\n"
            ((blocks.filter fun b => b.btype == "text").map fun b => joinElemStr b.text)
        | ToolContent.str s => s
        | ToolContent.other v => jsStringify v) c)] := by
  unfold onToolUse
  rw [h1]
  dsimp only
  rw [h2]
  cases c <;> rfl

/-- C8 witness: a concrete mixed-block response normalizes to the
newline join of its text blocks. -/
theorem C8_witness : (onToolUse none toolsW tcW).msgs = [Msg.tool "w1" "a\nb"] := by
  have h := C8_tool_result_normalization none toolsW tcW JsonVal.jnull
    (ToolContent.arr [{ btype := "text", text := JsonVal.jstr "a" },
      { btype := "image", text := JsonVal.jstr "ignored" },
      { btype := "text", text := JsonVal.jstr "b" }]) rfl rfl
  exact h

/-- C9: the product side extraction returns at most the configured
maximum (`maxProducts`, 10 by default) summaries; a payload whose text
block fails to parse as JSON yields the empty list, as does a parsed
object payload without a `products` array — the extraction is total and
never aborts the turn. -/
theorem C9_product_extraction_bounded (cfg : Option Nat) (resp : ToolResponse) :
    (processProductSearchResult cfg resp).length ≤ maxProducts cfg ∧
    (∀ blocks blk s, resp = ToolResponse.ok (ToolContent.arr blocks) →
      blocks.find? (fun b => b.btype == "text") = some blk →
      blk.text = JsonVal.jstr s → jsonParse s = none →
      processProductSearchResult cfg resp = []) ∧
    (∀ blocks blk fs, resp = ToolResponse.ok (ToolContent.arr blocks) →
      blocks.find? (fun b => b.btype == "text") = some blk →
      blk.text = JsonVal.jobj fs →
      (∀ ps, getField (JsonVal.jobj fs) "products" ≠ some (JsonVal.jarr ps)) →
      processProductSearchResult cfg resp = []) := by
  have hlen : ∀ rd, (productsOf cfg rd).length ≤ maxProducts cfg := by
    intro rd
    unfold productsOf
    split
    · split
      · rw [List.length_map, List.length_take]
        omega
      · simp
    · simp
  refine ⟨?_, ?_, ?_⟩
  · cases resp with
    | error a b => simp [processProductSearchResult]
    | ok c =>
      cases c with
      | str s => simp [processProductSearchResult]
      | other v => simp [processProductSearchResult]
      | arr blocks =>
        unfold processProductSearchResult
        split
        all_goals try split
        all_goals try split
        all_goals try split
        all_goals first
          | exact hlen _
          | exact Nat.zero_le _
  · intro blocks blk s hresp hfind htext hparse
    subst hresp
    have hne : blocks.isEmpty = false := by
      cases blocks
      · simp at hfind
      · rfl
    unfold processProductSearchResult
    simp only [hne, Bool.false_eq_true, if_false, hfind, htext]
    by_cases hs : s.isEmpty
    · simp [jsTruthy, hs]
    · simp [jsTruthy, hs, responseDataOf, hparse, productsOf]
  · intro blocks blk fs hresp hfind htext hnp
    subst hresp
    have hne : blocks.isEmpty = false := by
      cases blocks
      · simp at hfind
      · rfl
    unfold processProductSearchResult
    simp only [hne, Bool.false_eq_true, if_false, hfind, htext]
    have : productsOf cfg (responseDataOf (JsonVal.jobj fs)) = [] := by
      unfold responseDataOf productsOf
      cases hg : getField (JsonVal.jobj fs) "products" with
      | none => simp [hg]
      | some v =>
        cases v with
        | jarr ps => exact absurd hg (hnp ps)
        | jnull => simp [hg]
        | jbool b => simp [hg]
        | jnum n => simp [hg]
        | jstr s2 => simp [hg]
        | jobj fs2 => simp [hg]
    simp [jsTruthy, this]

/-- C9 witness: with no configured maximum and an unparseable payload,
the extraction is bounded by 10 and returns the empty list. -/
theorem C9_witness :
    (processProductSearchResult none respBadParse).length ≤ 10 ∧
    processProductSearchResult none respBadParse = [] := by
  exact ⟨(C9_product_extraction_bounded none respBadParse).1,
    (C9_product_extraction_bounded none respBadParse).2.1 _ _ "not json" rfl rfl rfl rfl⟩

/-- C10: loading the truncated history never surfaces an error: when the
stored-message read (or any later processing step inside the try block)
throws, the surrounding catch returns the empty message list; all
per-message processing in the embedding is total by construction. -/
theorem C10_truncated_history_error_returns_empty (e : String) :
    getTruncatedHistory (Except.error e) = [] := rfl
